import Mathlib

/-!
# Portfolio-Tracker: time-series reconstruction and stacked-value charting core

A shallow embedding of the chart engine in `src/components/Summary.tsx`
(data model from `src/types.ts`).  Times and prices are modelled as exact
rationals (the source computes in IEEE doubles; every claim below is about
the exact-arithmetic content of the algorithms).  Transaction dates enter
the core as already-parsed numeric timestamps.
-/

namespace PortfolioTracker

/-- `Transaction.type` from `src/types.ts` (`'BUY' | 'SELL'`). -/
inductive TxType where
  | BUY : TxType
  | SELL : TxType
  deriving DecidableEq

/-- A ledger entry, from `src/types.ts` (`Transaction`).  `date` is the
numeric timestamp `new Date(tx.date).getTime()`. -/
structure Transaction where
  tid : String
  ty : TxType
  quantity : ℚ
  pricePerCoin : ℚ
  date : ℚ
  totalCost : ℚ
  deriving DecidableEq

/-- The fields of `Asset` (`src/types.ts`) that the chart core reads.
An absent `priceHistory` and an empty one select the same strategy in the
source (`!asset.priceHistory || asset.priceHistory.length === 0`), so both
are modelled as `[]`. -/
structure Asset where
  aid : String
  currentPrice : ℚ
  transactions : List Transaction
  priceHistory : List (ℚ × ℚ)
  deriving DecidableEq

/-- Ledger accumulation at time `t` (Summary.tsx lines 131-140): a single
pass over the transactions adding `quantity` and `totalCost` of every
transaction with `txTime <= t`. -/
def cumulativeAt (txs : List Transaction) (t : ℚ) : ℚ × ℚ :=
  txs.foldl
    (fun acc tx => if tx.date ≤ t then (acc.1 + tx.quantity, acc.2 + tx.totalCost) else acc)
    (0, 0)

/-- One day in milliseconds, the `24 * 60 * 60 * 1000` of the source. -/
def msPerDay : ℚ := 86400000

/-- History strategy (Summary.tsx lines 151-172): `findIndex` of the first
sample with `p[0] >= t`; index 0 left-clamps, no index right-clamps to the
last sample, otherwise linear interpolation between samples `idx-1` and
`idx` (guarding a zero span).  `dflt` is the initial
`estimatedPrice = asset.currentPrice`, kept only when the history is empty
(the strategy is then not entered by the source). -/
def historyEstimate (dflt t : ℚ) (hist : List (ℚ × ℚ)) : ℚ :=
  match hist with
  | [] => dflt
  | a :: rest =>
    match (a :: rest).findIdx? (fun p => decide (t ≤ p.1)) with
    | some 0 => a.2
    | none => (rest.getLastD a).2
    | some (i + 1) =>
      let p1 := (a :: rest).getD i (0, 0)
      let p2 := (a :: rest).getD (i + 1) (0, 0)
      let span := p2.1 - p1.1
      if 0 < span then p1.2 + (p2.2 - p1.2) * ((t - p1.1) / span) else p1.2

/-- The scan of Summary.tsx lines 181-194: walk consecutive anchor pairs,
interpolate in the first pair with `t >= a.time && t <= b.time`, guard a
zero span; if no pair matches, `estimatedPrice` keeps its initial value
`dflt` (the loop falls through without assigning). -/
def anchorScan (dflt t : ℚ) : List (ℚ × ℚ) → ℚ
  | a :: b :: rest =>
    if a.1 ≤ t ∧ t ≤ b.1 then
      if 0 < b.1 - a.1 then a.2 + (b.2 - a.2) * ((t - a.1) / (b.1 - a.1)) else a.2
    else anchorScan dflt t (b :: rest)
  | _ => dflt

/-- Anchor strategy (Summary.tsx lines 176-196): left-clamp before the
first anchor, right-clamp after the last, otherwise the pair scan; with no
anchors `estimatedPrice` stays at `dflt = asset.currentPrice`. -/
def anchorEstimate (dflt t : ℚ) : List (ℚ × ℚ) → ℚ
  | [] => dflt
  | a :: rest =>
    if t ≤ a.1 then a.2
    else if (rest.getLastD a).1 ≤ t then (rest.getLastD a).2
    else anchorScan dflt t (a :: rest)

/-- The deduplication loop of Summary.tsx lines 107-111: walking the sorted
array from index 1, keep `anchors[i]` exactly when its time strictly
exceeds `anchors[i-1]`'s (the previous array element, not the last kept
one). -/
def dedupTail (prev : ℚ × ℚ) : List (ℚ × ℚ) → List (ℚ × ℚ)
  | [] => []
  | a :: rest => if prev.1 < a.1 then a :: dedupTail a rest else dedupTail a rest

/-- Summary.tsx lines 104-112: `uniqueAnchors` from a sorted anchor array —
the first element, then the strictly-increasing survivors. -/
def uniqueAnchors : List (ℚ × ℚ) → List (ℚ × ℚ)
  | [] => []
  | a :: rest => a :: dedupTail a rest

/-- Anchor construction (Summary.tsx lines 96-113): one `(time, price)`
pair per transaction, plus the synthetic `(now, currentPrice)`, sorted
ascending by time (JS `Array.sort` is stable; `mergeSort` models it), then
deduplicated. -/
def buildAnchors (asset : Asset) (now : ℚ) : List (ℚ × ℚ) :=
  let anchors :=
    asset.transactions.map (fun tx => (tx.date, tx.pricePerCoin)) ++ [(now, asset.currentPrice)]
  uniqueAnchors (anchors.mergeSort (fun a b => a.1 ≤ b.1))

/-- Strategy selection (Summary.tsx lines 149-197): real history when
non-empty, otherwise the anchor fallback; `estimatedPrice` starts at
`asset.currentPrice`. -/
def estimatePrice (asset : Asset) (now t : ℚ) : ℚ :=
  match asset.priceHistory with
  | [] => anchorEstimate asset.currentPrice t (buildAnchors asset now)
  | a :: rest => historyEstimate asset.currentPrice t (a :: rest)

/-- One point of the synthesized series (the `ChartDataPoint` of
Summary.tsx lines 18-23).  `stack` models the JS record `stack[assetId]`
with missing keys reading as `0` (`d.stack[id] || 0`) and later writes
winning. -/
structure SeriesPoint where
  timestamp : ℚ
  costBasis : ℚ
  marketValue : ℚ
  stack : String → ℚ

/-- The per-asset body of the synthesis loop (Summary.tsx lines 129-203):
accumulate `(totalCost, totalVal, stack)`; an asset whose cumulative
quantity at `t` is `<= 0` writes `stack[id] = 0` and returns early,
touching neither total. -/
def assetStep (now t : ℚ) (acc : ℚ × ℚ × (String → ℚ)) (asset : Asset) :
    ℚ × ℚ × (String → ℚ) :=
  let q := cumulativeAt asset.transactions t
  if q.1 ≤ 0 then
    (acc.1, acc.2.1, fun x => if x = asset.aid then 0 else acc.2.2 x)
  else
    let val := q.1 * estimatePrice asset now t
    (acc.1 + q.2, acc.2.1 + val, fun x => if x = asset.aid then val else acc.2.2 x)

/-- One synthesized point at time `t` (Summary.tsx lines 122-210). -/
def synthPoint (assets : List Asset) (now t : ℚ) : SeriesPoint :=
  let acc := assets.foldl (assetStep now t) (0, 0, fun _ => 0)
  ⟨t, acc.1, acc.2.1, acc.2.2⟩

/-- The resolution constant `steps = 150` of Summary.tsx line 118. -/
def steps : ℕ := 150

/-- Series synthesis (Summary.tsx lines 117-211): `steps + 1` points at
`t = minTime + stepSize * i`, `i = 0 .. steps`. -/
def synthesize (assets : List Asset) (minTime maxTime now : ℚ) : List SeriesPoint :=
  let stepSize := (maxTime - minTime) / steps
  (List.range (steps + 1)).map (fun i : ℕ => synthPoint assets now (minTime + stepSize * i))

/-- The time-range selector (Summary.tsx line 16); `custom` carries the
already-parsed optional start and end timestamps (an empty date input is
falsy in the source and is modelled as `none`). -/
inductive TimeRange where
  | h24 : TimeRange
  | w1 : TimeRange
  | m1 : TimeRange
  | all : TimeRange
  | custom : Option ℚ → Option ℚ → TimeRange

/-- Summary.tsx lines 60-66: the earliest transaction timestamp across all
assets, starting from `now` and lowering on every strictly earlier date. -/
def firstTxTimestamp (assets : List Asset) (now : ℚ) : ℚ :=
  assets.foldl
    (fun acc a => a.transactions.foldl (fun m tx => if tx.date < m then tx.date else m) acc)
    now

/-- The final unconditional window rule (Summary.tsx line 89):
`if (minTime >= maxTime) minTime = maxTime - 86400000`. -/
def enforceWindow (mm : ℚ × ℚ) : ℚ × ℚ :=
  if mm.2 ≤ mm.1 then (mm.2 - msPerDay, mm.2) else mm

/-- Time-window resolution (Summary.tsx lines 55-89): fixed lookbacks, the
ALL range from the earliest transaction with the `minTime * 1e-5` epsilon
bias, the custom range (start absent leaves the `(now, now)` default), and
the final `enforceWindow` rule. -/
def resolve (sel : TimeRange) (assets : List Asset) (now : ℚ) : ℚ × ℚ :=
  let ftx0 := firstTxTimestamp assets now
  let ftx := if assets.length = 0 ∨ ftx0 = now then now - msPerDay else ftx0
  let mm : ℚ × ℚ :=
    match sel with
    | .h24 => (now - msPerDay, now)
    | .w1 => (now - 7 * msPerDay, now)
    | .m1 => (now - 30 * msPerDay, now)
    | .all => (ftx - ftx * (1 / 100000), now)
    | .custom none _ => (now, now)
    | .custom (some s) e => (s, e.getD now)
  enforceWindow mm

/-- One stacked region in value space (the spec's `StackedRegion`):
`yTop[i] = baseline[i] + stack[assetId][i]`, `yBottom[i] = baseline[i]`
(Summary.tsx lines 240-250; the monotone pixel map `getY` is display-only
and not part of the stacking geometry). -/
structure Region where
  assetId : String
  yTop : List ℚ
  yBottom : List ℚ

/-- The stacking fold of Summary.tsx lines 230-275: a running baseline
(initially all zero) threads left to right; an asset with no positive
value at any point is skipped without touching the baseline; an emitted
asset's region has the current baseline as bottom and baseline + values as
top, and the baseline becomes its top line.  The source only pushes a path
when there are at least two points (it still advances the baseline). -/
def buildStackAux (pts : List SeriesPoint) : List ℚ → List Asset → List Region
  | _, [] => []
  | baseline, asset :: rest =>
    if pts.any (fun d => decide (0 < d.stack asset.aid)) then
      let yTop := List.zipWith (fun b d => b + d.stack asset.aid) baseline pts
      if 1 < pts.length then
        ⟨asset.aid, yTop, baseline⟩ :: buildStackAux pts yTop rest
      else buildStackAux pts yTop rest
    else buildStackAux pts baseline rest

/-- Stack construction entry point (Summary.tsx lines 229-275). -/
def buildStack (pts : List SeriesPoint) (assets : List Asset) : List Region :=
  buildStackAux pts (List.replicate pts.length 0) assets

/-- The cost-basis reference polyline in value space (Summary.tsx
line 278): one `(timestamp, costBasis)` vertex per synthesized point. -/
def costBasisLine (pts : List SeriesPoint) : List (ℚ × ℚ) :=
  pts.map (fun d => (d.timestamp, d.costBasis))

/-- Point query (Summary.tsx lines 333-337): clamp the ratio to `[0, 1]`,
take the point at index `floor(ratio * (points.length - 1))`. -/
def resolveAt (points : List SeriesPoint) (r : ℚ) : Option SeriesPoint :=
  let rc := max 0 (min 1 r)
  points.get? (Int.toNat ⌊rc * ((points.length : ℚ) - 1)⌋)

/-- A transaction with the `type` field rewritten, every other field kept:
the two runs of the type-independence experiment differ only here. -/
def retype (f : Transaction → TxType) (tx : Transaction) : Transaction :=
  { tx with ty := f tx }

/-- An asset whose transactions all had their `type` rewritten. -/
def retypeAsset (f : Transaction → TxType) (a : Asset) : Asset :=
  { a with transactions := a.transactions.map (retype f) }

/-- The single-transaction scenario asset of the anchor-fallback check:
one BUY of quantity 1 at price 100 on `day0`, current price 150, no
history. -/
def oneTxAsset (day0 : ℚ) : Asset :=
  ⟨"asset1", 150, [⟨"tx1", .BUY, 1, 100, day0, 100⟩], []⟩

/-- The epoch-dated asset exhibiting the ALL-range epsilon-bias failure:
one BUY dated at timestamp `0`. -/
def epochAsset : Asset :=
  ⟨"asset0", 150, [⟨"tx0", .BUY, 1, 100, 0, 100⟩], []⟩

/-- An all-zero series point, used as the default of positional lookups. -/
def zeroPoint : SeriesPoint := ⟨0, 0, 0, fun _ => 0⟩

lemma cumulativeAt_foldl (txs : List Transaction) (t a b : ℚ) :
    txs.foldl
        (fun acc tx =>
          if tx.date ≤ t then (acc.1 + tx.quantity, acc.2 + tx.totalCost) else acc)
        (a, b) =
      (a + ((txs.filter (fun tx => tx.date ≤ t)).map Transaction.quantity).sum,
        b + ((txs.filter (fun tx => tx.date ≤ t)).map Transaction.totalCost).sum) := by
  induction txs generalizing a b with
  | nil => simp
  | cons tx rest ih =>
    by_cases h : tx.date ≤ t
    · simp only [List.foldl_cons, List.filter_cons, h, if_pos, decide_eq_true_eq,
        List.map_cons, List.sum_cons, ih, Prod.mk.injEq]
      exact ⟨by ring, by ring⟩
    · simp only [List.foldl_cons, List.filter_cons, h, if_neg, decide_eq_true_eq,
        List.map_cons, List.sum_cons, ih, if_false]

/-- C1. The ledger accumulation sums `quantity` and `totalCost` over
exactly the transactions dated `<= t`; later transactions contribute
nothing, and with no qualifying transaction the result is `(0, 0)`. -/
theorem c1_cumulativeAt_sums_qualifying (txs : List Transaction) (t : ℚ) :
    cumulativeAt txs t =
        (((txs.filter (fun tx => tx.date ≤ t)).map Transaction.quantity).sum,
          ((txs.filter (fun tx => tx.date ≤ t)).map Transaction.totalCost).sum) ∧
      ((∀ tx ∈ txs, ¬ tx.date ≤ t) → cumulativeAt txs t = (0, 0)) := by
  have base := cumulativeAt_foldl txs t 0 0
  constructor
  · simpa [cumulativeAt] using base
  · intro hnone
    have hfil : txs.filter (fun tx => tx.date ≤ t) = [] := by
      simp only [List.filter_eq_nil_iff, decide_eq_true_eq]
      exact hnone
    simpa [cumulativeAt, hfil] using base

/-- Witness for C1 at a concrete ledger: one transaction dated 10 with
quantity 2 and totalCost 60, one dated 500 (after `t = 100`). -/
theorem c1_witness :
    cumulativeAt [⟨"x", .BUY, 2, 30, 10, 60⟩, ⟨"y", .BUY, 5, 7, 500, 35⟩] 100 = (2, 60) ∧
      cumulativeAt [⟨"y", .BUY, 5, 7, 500, 35⟩] 100 = (0, 0) := by
  constructor
  · have h := (c1_cumulativeAt_sums_qualifying
      [⟨"x", .BUY, 2, 30, 10, 60⟩, ⟨"y", .BUY, 5, 7, 500, 35⟩] 100).1
    rw [h]
    norm_num
  · exact (c1_cumulativeAt_sums_qualifying [⟨"y", .BUY, 5, 7, 500, 35⟩] 100).2
      (by intro tx htx; simp at htx; rw [htx]; norm_num)

lemma cumulativeAt_retype (f : Transaction → TxType) (txs : List Transaction) (t : ℚ) :
    cumulativeAt (txs.map (retype f)) t = cumulativeAt txs t := by
  simp [cumulativeAt, List.foldl_map, retype]

lemma buildAnchors_retype (f : Transaction → TxType) (a : Asset) (now : ℚ) :
    buildAnchors (retypeAsset f a) now = buildAnchors a now := by
  have hmap : List.map (fun tx => (tx.date, tx.pricePerCoin)) (List.map (retype f) a.transactions) =
      List.map (fun tx => (tx.date, tx.pricePerCoin)) a.transactions := by
    rw [List.map_map]
    rfl
  rw [buildAnchors, buildAnchors]
  show uniqueAnchors ((List.map (fun tx => (tx.date, tx.pricePerCoin))
      (List.map (retype f) a.transactions) ++ [(now, a.currentPrice)]).mergeSort _) = _
  rw [hmap]

lemma estimatePrice_retype (f : Transaction → TxType) (a : Asset) (now t : ℚ) :
    estimatePrice (retypeAsset f a) now t = estimatePrice a now t := by
  show (match a.priceHistory with
    | [] => anchorEstimate a.currentPrice t (buildAnchors (retypeAsset f a) now)
    | p :: rest => historyEstimate a.currentPrice t (p :: rest)) = _
  rw [estimatePrice, buildAnchors_retype]

lemma assetStep_retype (f : Transaction → TxType) (now t : ℚ) (acc : ℚ × ℚ × (String → ℚ))
    (a : Asset) : assetStep now t acc (retypeAsset f a) = assetStep now t acc a := by
  have hq : cumulativeAt (retypeAsset f a).transactions t = cumulativeAt a.transactions t := by
    show cumulativeAt (a.transactions.map (retype f)) t = _
    exact cumulativeAt_retype f a.transactions t
  have hid : (retypeAsset f a).aid = a.aid := rfl
  rw [assetStep, assetStep, hq, hid, estimatePrice_retype]

lemma synthPoint_retype (f : Transaction → TxType) (assets : List Asset) (now t : ℚ) :
    synthPoint (assets.map (retypeAsset f)) now t = synthPoint assets now t := by
  have hf : ∀ (acc : ℚ × ℚ × (String → ℚ)) (as : List Asset),
      as.foldl (fun x y => assetStep now t x (retypeAsset f y)) acc =
        as.foldl (assetStep now t) acc := by
    intro acc as
    induction as generalizing acc with
    | nil => rfl
    | cons a rest ih => simp only [List.foldl_cons, assetStep_retype, ih]
  rw [synthPoint, synthPoint, List.foldl_map, hf]

lemma synthesize_retype (f : Transaction → TxType) (assets : List Asset)
    (minTime maxTime now : ℚ) :
    synthesize (assets.map (retypeAsset f)) minTime maxTime now =
      synthesize assets minTime maxTime now := by
  rw [synthesize, synthesize]
  exact List.map_congr_left (fun i _ => synthPoint_retype f assets now _)

lemma buildStackAux_retype (f : Transaction → TxType) (pts : List SeriesPoint)
    (assets : List Asset) : ∀ baseline,
    buildStackAux pts baseline (assets.map (retypeAsset f)) =
      buildStackAux pts baseline assets := by
  induction assets with
  | nil => intro baseline; rfl
  | cons a rest ih =>
    intro baseline
    have hid : (retypeAsset f a).aid = a.aid := rfl
    rw [List.map_cons, buildStackAux, buildStackAux, hid]
    by_cases hv : pts.any (fun d => decide (0 < d.stack a.aid))
    · simp only [hv, if_pos]
      by_cases hl : 1 < pts.length
      · simp only [hl, if_pos, ih]
      · simp only [hl, if_neg, ih, if_false]
    · simp only [hv, if_neg, ih, if_false]

/-- C10. Ledger accumulation ignores the transaction `type` field: runs
differing only in BUY/SELL flags produce the same accumulated totals, the
same synthesized series, and the same stack geometry (a SELL is added
exactly like a BUY, never subtracted). -/
theorem c10_type_field_irrelevant (f : Transaction → TxType) (txs : List Transaction)
    (assets : List Asset) (minTime maxTime now t : ℚ) :
    cumulativeAt (txs.map (retype f)) t = cumulativeAt txs t ∧
      synthesize (assets.map (retypeAsset f)) minTime maxTime now =
        synthesize assets minTime maxTime now ∧
      buildStack (synthesize (assets.map (retypeAsset f)) minTime maxTime now)
          (assets.map (retypeAsset f)) =
        buildStack (synthesize assets minTime maxTime now) assets := by
  refine ⟨cumulativeAt_retype f txs t, synthesize_retype f assets minTime maxTime now, ?_⟩
  rw [synthesize_retype, buildStack, buildStack]
  exact buildStackAux_retype f _ assets _

lemma findIdx?_first {α : Type} (p : α → Bool) (l : List α) :
    ∀ (j i : ℕ) (hj : j < l.length),
      p (l.get ⟨j, hj⟩) = true →
      (∀ k, (hk : k < j) → p (l.get ⟨k, hk.trans hj⟩) = false) →
      l.findIdx? p i = some (i + j) := by
  induction l with
  | nil =>
    intro j i hj
    exact absurd hj (by simp)
  | cons x xs ih =>
    intro j i hj hp hlt
    cases j with
    | zero =>
      rw [List.findIdx?_cons]
      simp only [List.get] at hp
      rw [hp]
      simp
    | succ j' =>
      have hx : p x = false := by simpa using hlt 0 (Nat.succ_pos j')
      rw [List.findIdx?_cons, hx]
      simp only [Bool.false_eq_true, if_false]
      have hj' : j' < xs.length := Nat.lt_of_succ_lt_succ hj
      have hp' : p (xs.get ⟨j', hj'⟩) = true := by simpa using hp
      have hlt' : ∀ k, (hk : k < j') → p (xs.get ⟨k, hk.trans hj'⟩) = false := by
        intro k hk
        simpa using hlt (k + 1) (Nat.succ_lt_succ hk)
      rw [ih j' (i + 1) hj' hp' hlt']
      congr 1
      omega

lemma historyEstimate_exact (hist : List (ℚ × ℚ)) (dflt : ℚ)
    (hasc : hist.Pairwise (fun a b => a.1 < b.1)) :
    ∀ pr ∈ hist, historyEstimate dflt pr.1 hist = pr.2 := by
  intro pr hpr
  obtain ⟨⟨j, hj⟩, hget⟩ := List.mem_iff_get.1 hpr
  subst hget
  have hordered : ∀ (k m : ℕ) (hk : k < hist.length) (hm : m < hist.length), k < m →
      (hist.get ⟨k, hk⟩).1 < (hist.get ⟨m, hm⟩).1 := by
    intro k m hk hm hkm
    have := List.pairwise_iff_getElem.1 hasc k m hk hm hkm
    simpa using this
  have hfind : hist.findIdx? (fun p => decide ((hist.get ⟨j, hj⟩).1 ≤ p.1)) = some j := by
    have h0 := findIdx?_first (fun p => decide ((hist.get ⟨j, hj⟩).1 ≤ p.1)) hist j 0 hj
      (by simp)
      (by
        intro k hk
        have := hordered k j (hk.trans hj) hj hk
        simp only [decide_eq_false_iff_not, not_le]
        exact this)
    simpa using h0
  cases hist with
  | nil => exact absurd hj (by simp)
  | cons a rest =>
    cases j with
    | zero =>
      rw [historyEstimate, hfind]
      simp
    | succ j' =>
      rw [historyEstimate, hfind]
      simp only []
      have hj'1 : j' < (a :: rest).length := Nat.lt_of_succ_lt hj
      have hgd1 : (a :: rest).getD j' (0, 0) = (a :: rest).get ⟨j', hj'1⟩ := by
        rw [List.getD_eq_getElem (a :: rest) (0, 0) hj'1]
        simp
      have hgd2 : (a :: rest).getD (j' + 1) (0, 0) = (a :: rest).get ⟨j' + 1, hj⟩ := by
        rw [List.getD_eq_getElem (a :: rest) (0, 0) hj]
        simp
      simp only [hgd1, hgd2]
      have hspan : ((a :: rest).get ⟨j', hj'1⟩).1 < ((a :: rest).get ⟨j' + 1, hj⟩).1 :=
        hordered j' (j' + 1) hj'1 hj (Nat.lt_succ_self j')
      rw [if_pos (by linarith)]
      rw [div_self (by linarith)]
      ring

/-- C2. For an asset whose price history is non-empty with strictly
ascending timestamps, the history-strategy estimate reproduces every
sample exactly at its own timestamp (the first sample via the left-clamp
branch, interior and last samples via the interpolation formula). -/
theorem c2_history_strategy_exact_at_samples (asset : Asset) (now : ℚ)
    (hasc : asset.priceHistory.Pairwise (fun a b => a.1 < b.1)) :
    ∀ pr ∈ asset.priceHistory, estimatePrice asset now pr.1 = pr.2 := by
  intro pr hpr
  cases hcase : asset.priceHistory with
  | nil =>
    rw [hcase] at hpr
    exact absurd hpr (List.not_mem_nil pr)
  | cons a rest =>
    have hred : estimatePrice asset now pr.1 =
        historyEstimate asset.currentPrice pr.1 (a :: rest) := by
      rw [estimatePrice, hcase]
    rw [hred, ← hcase]
    exact historyEstimate_exact asset.priceHistory asset.currentPrice hasc pr hpr

/-- Witness for C2: an asset with the strictly ascending three-sample
history `(0,10), (100,20), (200,40)` has estimate exactly 20 at timestamp
100. -/
theorem c2_witness :
    estimatePrice ⟨"h", 7, [], [(0, 10), (100, 20), (200, 40)]⟩ 500 100 = 20 :=
  c2_history_strategy_exact_at_samples ⟨"h", 7, [], [(0, 10), (100, 20), (200, 40)]⟩ 500
    (by norm_num) ((100 : ℚ), (20 : ℚ)) (by norm_num)

lemma mergeSort_pair {α : Type} (le : α → α → Bool) (a b : α) (h : le a b = true) :
    List.mergeSort [a, b] le = [a, b] := by
  simp [List.mergeSort, List.merge, h]

/-- C3. Anchor-fallback scenario: one BUY of quantity 1 at price 100 on
`day0`, current price 150, no history, `now = day0 + 10 days`.  The anchor
builder yields exactly `[(day0, 100), (now, 150)]` and the estimate at
`day0 + 5 days` is exactly 125. -/
theorem c3_anchor_fallback_midpoint (day0 : ℚ) :
    buildAnchors (oneTxAsset day0) (day0 + 10 * msPerDay) =
        [(day0, 100), (day0 + 10 * msPerDay, 150)] ∧
      estimatePrice (oneTxAsset day0) (day0 + 10 * msPerDay) (day0 + 5 * msPerDay) = 125 := by
  have hle : (fun (a b : ℚ × ℚ) => decide (a.1 ≤ b.1)) (day0, 100)
      (day0 + 10 * msPerDay, 150) = true := by
    simp only [decide_eq_true_eq]
    norm_num [msPerDay]
  have hanch : buildAnchors (oneTxAsset day0) (day0 + 10 * msPerDay) =
      [(day0, 100), (day0 + 10 * msPerDay, 150)] := by
    rw [buildAnchors]
    show uniqueAnchors (List.mergeSort [(day0, 100), (day0 + 10 * msPerDay, 150)]
      (fun a b => decide (a.1 ≤ b.1))) = _
    rw [mergeSort_pair _ _ _ hle]
    rw [uniqueAnchors, dedupTail]
    rw [if_pos (by norm_num [msPerDay])]
    rfl
  refine ⟨hanch, ?_⟩
  show anchorEstimate 150 (day0 + 5 * msPerDay)
    (buildAnchors (oneTxAsset day0) (day0 + 10 * msPerDay)) = 125
  rw [hanch, anchorEstimate]
  rw [if_neg (by norm_num [msPerDay])]
  have hlast : ([(day0 + 10 * msPerDay, 150)].getLastD (day0, 100)) =
      (day0 + 10 * msPerDay, (150 : ℚ)) := rfl
  rw [hlast]
  rw [if_neg (by norm_num [msPerDay])]
  rw [anchorScan]
  rw [if_pos (by constructor <;> norm_num [msPerDay])]
  rw [if_pos (by norm_num [msPerDay])]
  norm_num [msPerDay]

/-- C4. If the accumulated quantity at `t` is `<= 0` (in particular
whenever every transaction is dated strictly after `t`), the per-asset
step writes `stack[id] = 0`, adds nothing to the point's market value, and
excludes the accumulated cost from the point's cost basis. -/
theorem c4_not_yet_owned_contributes_zero (asset : Asset) (now t tc tv : ℚ)
    (st : String → ℚ) :
    ((cumulativeAt asset.transactions t).1 ≤ 0 →
      (assetStep now t (tc, tv, st) asset).1 = tc ∧
        (assetStep now t (tc, tv, st) asset).2.1 = tv ∧
        (assetStep now t (tc, tv, st) asset).2.2 asset.aid = 0 ∧
        ∀ x, x ≠ asset.aid → (assetStep now t (tc, tv, st) asset).2.2 x = st x) ∧
      ((∀ tx ∈ asset.transactions, ¬ tx.date ≤ t) →
        (cumulativeAt asset.transactions t).1 ≤ 0) := by
  constructor
  · intro hq
    have hstep : assetStep now t (tc, tv, st) asset =
        (tc, tv, fun x => if x = asset.aid then 0 else st x) := by
      simp only [assetStep]
      rw [if_pos hq]
    refine ⟨by rw [hstep], by rw [hstep], by rw [hstep]; simp, ?_⟩
    intro x hx
    rw [hstep]
    simp [hx]
  · intro hnone
    rw [(c1_cumulativeAt_sums_qualifying asset.transactions t).2 hnone]

/-- Witness for C4: the epoch asset queried at `t = -5`, before its only
transaction, leaves the totals `(1, 2)` untouched, writes a zero stack
entry for it, and leaves other stack entries alone. -/
theorem c4_witness :
    (assetStep 100 (-5) (1, 2, fun _ => 7) epochAsset).1 = 1 ∧
      (assetStep 100 (-5) (1, 2, fun _ => 7) epochAsset).2.1 = 2 ∧
      (assetStep 100 (-5) (1, 2, fun _ => 7) epochAsset).2.2 "asset0" = 0 ∧
      (assetStep 100 (-5) (1, 2, fun _ => 7) epochAsset).2.2 "other" = 7 := by
  have h := (c4_not_yet_owned_contributes_zero epochAsset 100 (-5) 1 2 (fun _ => 7)).1
    (by norm_num [cumulativeAt, epochAsset])
  refine ⟨h.1, h.2.1, h.2.2.1, ?_⟩
  have hother := h.2.2.2 "other" (by simp [epochAsset])
  simpa using hother

/-- C5. For every selector, asset list and `now`, the resolved window is
strictly positive: the final unconditional rule turns any degenerate
`minTime >= maxTime` into `maxTime - 86400000 < maxTime`. -/
theorem c5_window_strictly_positive (sel : TimeRange) (assets : List Asset) (now : ℚ) :
    (resolve sel assets now).1 < (resolve sel assets now).2 := by
  have key : ∀ mm : ℚ × ℚ, (enforceWindow mm).1 < (enforceWindow mm).2 := by
    intro mm
    rw [enforceWindow]
    by_cases h : mm.2 ≤ mm.1
    · rw [if_pos h]
      norm_num [msPerDay]
    · rw [if_neg h]
      exact not_le.1 h
  simp only [resolve]
  exact key _

/-- Counterexample to C6 as stated: with the single transaction dated at
epoch timestamp `T0 = 0` and `now` one day later, `T0 < now` holds but the
ALL-range `minTime` equals `T0` (the epsilon bias `minTime * 1e-5`
vanishes at zero), so it is not strictly less than `T0`. -/
theorem c6_counterexample :
    firstTxTimestamp [epochAsset] 86400000 = 0 ∧
      (0 : ℚ) < 86400000 ∧
      resolve TimeRange.all [epochAsset] 86400000 = (0, 86400000) ∧
      ¬ (resolve TimeRange.all [epochAsset] 86400000).1 < 0 := by
  norm_num [firstTxTimestamp, epochAsset, resolve, enforceWindow, msPerDay]

/-- C6 (amended): when the earliest transaction timestamp `T0` is
positive and precedes `now`, the ALL range resolves to
`minTime = T0 - T0 * 1e-5` strictly below `T0` and `maxTime = now`. -/
theorem c6_all_range_epsilon_bias (assets : List Asset) (now T0 : ℚ)
    (hT0 : firstTxTimestamp assets now = T0) (hpos : 0 < T0) (hlt : T0 < now) :
    (resolve TimeRange.all assets now).1 < T0 ∧
      (resolve TimeRange.all assets now).2 = now := by
  have hne : ¬ (assets.length = 0 ∨ firstTxTimestamp assets now = now) := by
    rintro (h | h)
    · have hnil : assets = [] := List.length_eq_zero.1 h
      rw [hnil] at hT0
      have : now = T0 := hT0
      rw [this] at hlt
      exact absurd hlt (lt_irrefl T0)
    · rw [hT0] at h
      rw [h] at hlt
      exact absurd hlt (lt_irrefl now)
  have hmin : T0 - T0 * (1 / 100000) < T0 := by
    have hq : 0 < T0 * (1 / 100000) := by positivity
    linarith
  simp only [resolve]
  rw [if_neg hne, hT0, enforceWindow]
  rw [if_neg (by simp only [not_le]; exact lt_trans hmin hlt)]
  exact ⟨hmin, rfl⟩

/-- Witness for the amended C6: one transaction dated 100, `now = 10^6`. -/
theorem c6_witness :
    (resolve TimeRange.all [oneTxAsset 100] 1000000).1 < 100 ∧
      (resolve TimeRange.all [oneTxAsset 100] 1000000).2 = 1000000 :=
  c6_all_range_epsilon_bias [oneTxAsset 100] 1000000 100
    (by norm_num [firstTxTimestamp, oneTxAsset]) (by norm_num) (by norm_num)

lemma buildStackAux_short (pts : List SeriesPoint) (hlen : ¬ 1 < pts.length) :
    ∀ (assets : List Asset) (b : List ℚ), buildStackAux pts b assets = [] := by
  intro assets
  induction assets with
  | nil =>
    intro b
    rfl
  | cons a as ih =>
    intro b
    simp only [buildStackAux]
    by_cases hv : pts.any (fun d => decide (0 < d.stack a.aid)) = true
    · rw [if_pos hv, if_neg hlen]
      exact ih _
    · rw [if_neg hv]
      exact ih _

lemma buildStackAux_chain (pts : List SeriesPoint) (hlen : 1 < pts.length) :
    ∀ (assets : List Asset) (baseline : List ℚ),
      List.Chain' (fun r s => s.yBottom = r.yTop) (buildStackAux pts baseline assets) ∧
        ∀ r rest2, buildStackAux pts baseline assets = r :: rest2 → r.yBottom = baseline := by
  intro assets
  induction assets with
  | nil =>
    intro baseline
    exact ⟨List.chain'_nil, fun r rest2 h => absurd h (by simp [buildStackAux])⟩
  | cons a as ih =>
    intro baseline
    simp only [buildStackAux]
    by_cases hv : pts.any (fun d => decide (0 < d.stack a.aid)) = true
    · rw [if_pos hv, if_pos hlen]
      obtain ⟨ihchain, ihhead⟩ := ih (List.zipWith (fun b d => b + d.stack a.aid) baseline pts)
      constructor
      · cases hrec : buildStackAux pts
          (List.zipWith (fun b d => b + d.stack a.aid) baseline pts) as with
        | nil => simp
        | cons r2 rest2 =>
          rw [List.chain'_cons]
          refine ⟨?_, ?_⟩
          · exact ihhead r2 rest2 hrec
          · rw [← hrec]
            exact ihchain
      · intro r rest2 heq
        simp only [List.cons.injEq] at heq
        rw [← heq.1]
    · rw [if_neg hv]
      obtain ⟨ihchain, ihhead⟩ := ih baseline
      exact ⟨ihchain, ihhead⟩

/-- C7. Baseline continuity of the stack geometry: in the region list the
stack builder emits, each region's bottom line is exactly the previous
emitted region's top line, at every sample index. -/
theorem c7_baseline_continuity (pts : List SeriesPoint) (assets : List Asset) (k i : ℕ)
    (hk : k + 1 < (buildStack pts assets).length) :
    ((buildStack pts assets).get ⟨k + 1, hk⟩).yBottom.getD i 0 =
      ((buildStack pts assets).get ⟨k, Nat.lt_of_succ_lt hk⟩).yTop.getD i 0 := by
  have hlist : ((buildStack pts assets).get ⟨k + 1, hk⟩).yBottom =
      ((buildStack pts assets).get ⟨k, Nat.lt_of_succ_lt hk⟩).yTop := by
    by_cases hlen : 1 < pts.length
    · have hchain : List.Chain' (fun r s => s.yBottom = r.yTop) (buildStack pts assets) :=
        (buildStackAux_chain pts hlen assets (List.replicate pts.length 0)).1
      exact List.chain'_iff_get.1 hchain k (by omega)
    · have hnil : buildStack pts assets = [] := by
        rw [buildStack]
        exact buildStackAux_short pts hlen assets _
      rw [hnil] at hk
      exact absurd hk (by simp)
  rw [hlist]

/-- Witness for C7: two points and two always-positive assets produce two
stacked regions, and the second region's bottom at index 0 equals the
first region's top at index 0. -/
theorem c7_witness :
    ((buildStack [⟨0, 0, 0, fun _ => 1⟩, ⟨1, 0, 0, fun _ => 2⟩]
          [⟨"a", 150, [], []⟩, ⟨"b", 1, [], []⟩]).getD 1 ⟨"", [], []⟩).yBottom.getD 0 0 =
      ((buildStack [⟨0, 0, 0, fun _ => 1⟩, ⟨1, 0, 0, fun _ => 2⟩]
          [⟨"a", 150, [], []⟩, ⟨"b", 1, [], []⟩]).getD 0 ⟨"", [], []⟩).yTop.getD 0 0 := by
  have hk : 0 + 1 < (buildStack [⟨0, 0, 0, fun _ => 1⟩, ⟨1, 0, 0, fun _ => 2⟩]
      [⟨"a", 150, [], []⟩, ⟨"b", 1, [], []⟩]).length := by
    norm_num [buildStack, buildStackAux, List.zipWith, List.replicate]
  have h := c7_baseline_continuity [⟨0, 0, 0, fun _ => 1⟩, ⟨1, 0, 0, fun _ => 2⟩]
    [⟨"a", 150, [], []⟩, ⟨"b", 1, [], []⟩] 0 0 hk
  rw [List.getD_eq_getElem _ _ hk, List.getD_eq_getElem _ _ (Nat.lt_of_succ_lt hk)]
  simpa using h

/-- C8. With an empty asset list the synthesizer still produces
`steps + 1 = 151` points, all with zero market value and zero cost basis;
the stack builder emits no region and the cost-basis polyline is flat at
zero.  (All core functions are total Lean functions, so no input shape can
raise an exception.) -/
theorem c8_empty_assets_all_zero (minTime maxTime now : ℚ) :
    (synthesize [] minTime maxTime now).length = steps + 1 ∧
      steps + 1 = 151 ∧
      (∀ p ∈ synthesize [] minTime maxTime now, p.marketValue = 0 ∧ p.costBasis = 0) ∧
      buildStack (synthesize [] minTime maxTime now) [] = [] ∧
      ∀ q ∈ costBasisLine (synthesize [] minTime maxTime now), q.2 = 0 := by
  have hpt : ∀ t : ℚ, synthPoint [] now t = ⟨t, 0, 0, fun _ => 0⟩ := fun t => rfl
  refine ⟨?_, rfl, ?_, rfl, ?_⟩
  · unfold synthesize
    simp only [List.length_map, List.length_range]
  · intro p hp
    unfold synthesize at hp
    obtain ⟨i, _, hi⟩ := List.mem_map.1 hp
    rw [← hi, hpt]
    exact ⟨rfl, rfl⟩
  · intro q hq
    obtain ⟨p, hp, hqp⟩ := List.mem_map.1 hq
    unfold synthesize at hp
    obtain ⟨i, _, hi⟩ := List.mem_map.1 hp
    rw [← hqp, ← hi, hpt]

/-- Witness for C8 at the window `[0, 150]`: 151 points, an empty stack,
and the first point has zero market value and cost basis. -/
theorem c8_witness :
    (synthesize [] 0 150 999).length = 151 ∧
      buildStack (synthesize [] 0 150 999) [] = [] ∧
      ((synthesize [] 0 150 999).getD 0 zeroPoint).marketValue = 0 ∧
      ((synthesize [] 0 150 999).getD 0 zeroPoint).costBasis = 0 := by
  have h := c8_empty_assets_all_zero 0 150 999
  have hlen : (synthesize [] 0 150 999).length = 151 := by
    rw [h.1, h.2.1]
  have hlt : 0 < (synthesize [] 0 150 999).length := by
    rw [hlen]
    norm_num
  have hmem : (synthesize [] 0 150 999).getD 0 zeroPoint ∈ synthesize [] 0 150 999 := by
    rw [List.getD_eq_getElem _ _ hlt]
    exact List.getElem_mem hlt
  have hz := h.2.2.1 _ hmem
  exact ⟨hlen, h.2.2.2.1, hz.1, hz.2⟩

/-- C9. The point query clamps the ratio to `[0, 1]` and returns the point
at index `floor(ratio * (points.length - 1))`, which is always in bounds
for a non-empty series; no interpolation between points takes place. -/
theorem c9_resolveAt_in_bounds (points : List SeriesPoint) (r : ℚ) (hne : points ≠ []) :
    Int.toNat ⌊max 0 (min 1 r) * ((points.length : ℚ) - 1)⌋ ≤ points.length - 1 ∧
      resolveAt points r =
        some (points.getD (Int.toNat ⌊max 0 (min 1 r) * ((points.length : ℚ) - 1)⌋)
          zeroPoint) := by
  have hn : 1 ≤ points.length := List.length_pos.2 hne
  have h0 : (0 : ℚ) ≤ max 0 (min 1 r) := le_max_left 0 _
  have h1 : max 0 (min 1 r) ≤ 1 := max_le (by norm_num) (min_le_left 1 r)
  have hcast : ((points.length : ℚ) - 1) = ((points.length - 1 : ℕ) : ℚ) := by
    push_cast [hn]
    ring
  have hupper : max 0 (min 1 r) * ((points.length : ℚ) - 1) ≤ ((points.length - 1 : ℕ) : ℚ) := by
    rw [← hcast]
    have hnn : (0 : ℚ) ≤ (points.length : ℚ) - 1 := by
      have : (1 : ℚ) ≤ (points.length : ℚ) := by exact_mod_cast hn
      linarith
    calc max 0 (min 1 r) * ((points.length : ℚ) - 1)
        ≤ 1 * ((points.length : ℚ) - 1) := mul_le_mul_of_nonneg_right h1 hnn
      _ = (points.length : ℚ) - 1 := one_mul _
  have hfloor : ⌊max 0 (min 1 r) * ((points.length : ℚ) - 1)⌋ ≤ (points.length - 1 : ℕ) := by
    have := Int.floor_le_floor hupper
    rwa [Int.floor_natCast] at this
  have hidx : Int.toNat ⌊max 0 (min 1 r) * ((points.length : ℚ) - 1)⌋ ≤ points.length - 1 := by
    omega
  have hlt : Int.toNat ⌊max 0 (min 1 r) * ((points.length : ℚ) - 1)⌋ < points.length := by
    omega
  refine ⟨hidx, ?_⟩
  show points.get? _ = _
  rw [List.get?_eq_getElem?, List.getElem?_eq_getElem hlt, List.getD_eq_getElem _ _ hlt]

/-- Witness for C9: a two-point series queried at ratio `1/2` yields index
`floor(1/2 * 1) = 0`, in bounds, and the first point. -/
theorem c9_witness :
    Int.toNat ⌊max 0 (min 1 (1/2 : ℚ)) *
        ((([⟨0, 0, 0, fun _ => 0⟩, ⟨1, 2, 3, fun _ => 0⟩] : List SeriesPoint).length : ℚ) - 1)⌋ ≤
        ([⟨0, 0, 0, fun _ => 0⟩, ⟨1, 2, 3, fun _ => 0⟩] : List SeriesPoint).length - 1 ∧
      resolveAt [⟨0, 0, 0, fun _ => 0⟩, ⟨1, 2, 3, fun _ => 0⟩] (1/2) =
        some (([⟨0, 0, 0, fun _ => 0⟩, ⟨1, 2, 3, fun _ => 0⟩] : List SeriesPoint).getD
          (Int.toNat ⌊max 0 (min 1 (1/2 : ℚ)) *
            ((([⟨0, 0, 0, fun _ => 0⟩, ⟨1, 2, 3, fun _ => 0⟩] : List SeriesPoint).length : ℚ) -
              1)⌋) zeroPoint) :=
  c9_resolveAt_in_bounds [⟨0, 0, 0, fun _ => 0⟩, ⟨1, 2, 3, fun _ => 0⟩] (1/2) (by simp)

end PortfolioTracker
